import Mathlib

/-!
# The `PeopleLoader` batching data loader

A shallow embedding of `dataloader/peopleloader_gen.go` (the generated loader) and of the
fetch callback installed by `Middleware` in `dataloader/loaders.go`.

* Go slices are `GoSlice`: the nil slice and the non-nil slices are told apart, because
  `LoadThunk` tests `batch.error != nil`.
* Go pointers `*model.People` and `error` values are `Option`s, `none` being `nil`.
* A run-time panic (index out of range, nil dereference) and a receive on a channel that is
  not closed yet are outcomes of their own, see `Outcome`.
* The loader's batches live in a heap (`PeopleLoader.heap`); `l.batch` and the batch a thunk
  captured are indices into it.  The lock `mu` is modelled by taking every critical section
  as one atomic function.
-/

namespace Dataloader

/-! ## Data model -/

/-- The record `model.People`. -/
structure People where
  Name : String
  Height : String
  Mass : String
  Gender : String
  Homeworld : String
deriving DecidableEq, Repr

/-- A Go `error` value that is not nil. -/
structure GoError where
  msg : String
deriving DecidableEq, Repr

/-- A Go slice: `nil`, or a non-nil slice with its elements (possibly none). -/
inductive GoSlice (α : Type) where
  | nil : GoSlice α
  | mk (elems : List α) : GoSlice α
deriving DecidableEq, Repr

namespace GoSlice

/-- The builtin `len(s)`. -/
def len {α : Type} : GoSlice α → Nat
  | nil => 0
  | mk elems => elems.length

/-- The index expression `s[i]`; `none` is the index-out-of-range panic. -/
def idx {α : Type} : GoSlice α → Nat → Option α
  | nil, _ => none
  | mk elems, i => elems[i]?

/-- The builtin `make([]T, n)`: `n` zero values. -/
def make {α : Type} (n : Nat) (zero : α) : GoSlice α :=
  mk (List.replicate n zero)

/-- The builtin `append(s, x)`. -/
def append {α : Type} : GoSlice α → α → GoSlice α
  | nil, x => mk [x]
  | mk elems, x => mk (elems ++ [x])

end GoSlice

/-- The record `model.Results`, the JSON envelope of the search endpoint. -/
structure Results where
  Peoples : GoSlice (Option People)
deriving DecidableEq, Repr

/-- A Go `map[string]*model.People`: the nil map, or a map with its entries. -/
inductive GoMap where
  | nil : GoMap
  | mk (entries : List (String × Option People)) : GoMap
deriving DecidableEq, Repr

namespace GoMap

/-- The comma-ok lookup `it, ok := m[key]`: `none` is `ok = false`. -/
def lookup : GoMap → String → Option (Option People)
  | nil, _ => none
  | mk entries, key => entries.lookup key

/-- The assignment `m[key] = value` on a non-nil map's entries. -/
def assign (entries : List (String × Option People)) (key : String) (value : Option People) :
    List (String × Option People) :=
  (key, value) :: entries.filter (fun e => e.1 ≠ key)

/-- The builtin `delete(m, key)`; a no-op on the nil map. -/
def delete : GoMap → String → GoMap
  | nil, _ => nil
  | mk entries, key => mk (entries.filter (fun e => e.1 ≠ key))

end GoMap

/-- What running a piece of Go code gives: it waits on a channel nobody closed yet, it
panics, or it returns. -/
inductive Outcome (α : Type) where
  | blocked : Outcome α
  | panic : Outcome α
  | ret (a : α) : Outcome α
deriving DecidableEq, Repr

/-- The struct `peopleLoaderBatch`.  `done` is true once the channel `done` is closed.
`timers` and `ends` are bookkeeping of the goroutines: `timers` counts the `startTimer`
goroutines spawned for the batch that have not run yet, `ends` counts how many times the
batch's `end` routine has been invoked (by `go b.end(l)` or by the call in `startTimer`). -/
structure peopleLoaderBatch where
  keys : List String
  data : GoSlice (Option People)
  error : GoSlice (Option GoError)
  closing : Bool
  done : Bool
  timers : Nat
  ends : Nat
deriving DecidableEq, Repr

/-- The literal `&peopleLoaderBatch{done: make(chan struct{})}`. -/
def newBatch : peopleLoaderBatch :=
  { keys := [], data := GoSlice.nil, error := GoSlice.nil, closing := false, done := false,
    timers := 0, ends := 0 }

/-- The struct `PeopleLoader`, without `fetch` (passed to `batchEnd`), `wait` (a duration)
and `mu` (the lock).  `heap` holds every batch allocated so far; `batch` points into it. -/
structure PeopleLoader where
  maxBatch : Int
  cache : GoMap
  batch : Option Nat
  heap : List peopleLoaderBatch
deriving DecidableEq, Repr

/-- The loader `NewPeopleLoader` returns (and the literal in `Middleware`): no cache, no
batch. -/
def NewPeopleLoader (maxBatch : Int) : PeopleLoader :=
  { maxBatch := maxBatch, cache := GoMap.nil, batch := none, heap := [] }

/-- The function a `LoadThunk` call returns: the pre-resolved one of a cache hit, or the one
that waits for batch `batch` and reads position `pos`. -/
inductive Thunk where
  | hit (it : Option People) : Thunk
  | wait (key : String) (batch : Nat) (pos : Nat) : Thunk
deriving DecidableEq, Repr

/-! ## Operations of the loader -/

/-- Go's `int` subtraction `a - b` on 64-bit integers, wrapping around. -/
def subInt64 (a b : Int) : Int :=
  (a - b + 2 ^ 63) % 2 ^ 64 - 2 ^ 63

/-- `PeopleLoader.unsafeSet`: creates the cache when it is nil, then `l.cache[key] = value`. -/
def unsafeSet (l : PeopleLoader) (key : String) (value : Option People) : PeopleLoader :=
  match l.cache with
  | GoMap.nil => { l with cache := GoMap.mk (GoMap.assign [] key value) }
  | GoMap.mk entries => { l with cache := GoMap.mk (GoMap.assign entries key value) }

/-- The loop of `keyIndex`: the first index at which `key` stands in `keys`. -/
def findKey (key : String) : List String → Option Nat
  | [] => none
  | existingKey :: rest =>
    if key = existingKey then some 0 else (findKey key rest).map (fun i => i + 1)

/-- `peopleLoaderBatch.keyIndex` on the batch at `b`: the position of `key` in the batch,
appending it when it is not there; the first key spawns the timer, and a key at position
`maxBatch - 1` or later closes a batch that is not closing: the loader lets go of it and
`end` is invoked. -/
def keyIndex (l : PeopleLoader) (b : Nat) (key : String) : PeopleLoader × Nat :=
  match l.heap[b]? with
  | none => (l, 0)
  | some bt =>
    match findKey key bt.keys with
    | some i => (l, i)
    | none =>
      let pos := bt.keys.length
      let bt1 := { bt with keys := bt.keys ++ [key] }
      let bt2 := if pos = 0 then { bt1 with timers := bt1.timers + 1 } else bt1
      if l.maxBatch ≠ 0 ∧ (pos : Int) ≥ subInt64 l.maxBatch 1 then
        if bt2.closing = false then
          ({ l with batch := none,
                    heap := l.heap.set b { bt2 with closing := true, ends := bt2.ends + 1 } }, pos)
        else
          ({ l with heap := l.heap.set b bt2 }, pos)
      else
        ({ l with heap := l.heap.set b bt2 }, pos)

/-- The registration step of `PeopleLoader.LoadThunk` (the part under the lock). -/
def LoadThunk (l : PeopleLoader) (key : String) : PeopleLoader × Thunk :=
  match l.cache.lookup key with
  | some it => (l, Thunk.hit it)
  | none =>
    let lb : PeopleLoader × Nat :=
      match l.batch with
      | none => ({ l with batch := some l.heap.length, heap := l.heap ++ [newBatch] },
                 l.heap.length)
      | some b => (l, b)
    let r := keyIndex lb.1 lb.2 key
    (r.1, Thunk.wait key lb.2 r.2)

/-- The resolution step of `PeopleLoader.LoadThunk`: the body of the function it returns on
a cache miss, run on loader state `l` when the captured batch is in state `batch`. -/
def resolve (l : PeopleLoader) (key : String) (batch : peopleLoaderBatch) (pos : Nat) :
    Outcome ((Option People × Option GoError) × PeopleLoader) :=
  if batch.done = false then Outcome.blocked
  else
    let data : Option People :=
      if pos < batch.data.len then (batch.data.idx pos).getD none else none
    let err : Option (Option GoError) :=
      if batch.error.len = 1 then batch.error.idx 0
      else if batch.error ≠ GoSlice.nil then batch.error.idx pos
      else some none
    match err with
    | none => Outcome.panic
    | some none => Outcome.ret ((data, none), unsafeSet l key data)
    | some (some e) => Outcome.ret ((data, some e), l)

/-- Calling the function `LoadThunk` returned, on loader state `l`. -/
def Thunk.run (l : PeopleLoader) : Thunk → Outcome ((Option People × Option GoError) × PeopleLoader)
  | Thunk.hit it => Outcome.ret ((it, none), l)
  | Thunk.wait key b pos =>
    match l.heap[b]? with
    | none => Outcome.panic
    | some batch => resolve l key batch pos

/-- `PeopleLoader.Load`: `l.LoadThunk(key)()`. -/
def Load (l : PeopleLoader) (key : String) :
    Outcome ((Option People × Option GoError) × PeopleLoader) :=
  Thunk.run (LoadThunk l key).1 (LoadThunk l key).2

/-- `PeopleLoader.Prime`; the copy `cpy := *value` panics on a nil `value`. -/
def Prime (l : PeopleLoader) (key : String) (value : Option People) :
    Outcome (PeopleLoader × Bool) :=
  match l.cache.lookup key with
  | some _ => Outcome.ret (l, false)
  | none =>
    match value with
    | none => Outcome.panic
    | some cpy => Outcome.ret (unsafeSet l key (some cpy), true)

/-- `PeopleLoader.Clear`. -/
def Clear (l : PeopleLoader) (key : String) : PeopleLoader :=
  { l with cache := l.cache.delete key }

/-- The body of `peopleLoaderBatch.startTimer` after the sleep, on the batch at `b`. -/
def startTimer (l : PeopleLoader) (b : Nat) : PeopleLoader :=
  match l.heap[b]? with
  | none => l
  | some bt =>
    if bt.closing then l
    else { l with batch := none, heap := l.heap.set b { bt with ends := bt.ends + 1 } }

/-- The body of `peopleLoaderBatch.end`: the fetch call, then `close(b.done)`. -/
def batchEnd
    (fetch : List String → Outcome (GoSlice (Option People) × GoSlice (Option GoError)))
    (b : peopleLoaderBatch) : Outcome peopleLoaderBatch :=
  match fetch b.keys with
  | Outcome.ret r => Outcome.ret { b with data := r.1, error := r.2, done := true }
  | Outcome.panic => Outcome.panic
  | Outcome.blocked => Outcome.blocked

/-! ## The fetch callback of `Middleware` -/

/-- What the fetch callback of `Middleware` gets from outside: the two configuration strings
read through `viper.Get`, `url.QueryEscape`, `http.Get` (returning the response body),
`ioutil.ReadAll` and `json.Unmarshal` into a `*model.Results` that starts nil (`none`: the
pointer is still nil after a successful decode, as for the JSON text `null`). -/
structure Backend where
  endpoint : String
  searchPath : String
  queryEscape : String → String
  httpGet : String → Except GoError String
  readAll : String → Except GoError String
  unmarshal : String → Except GoError (Option Results)

/-- The `fetch` function literal of `Middleware`. -/
def middlewareFetch (w : Backend) (keys : List String) :
    Outcome (GoSlice (Option People) × GoSlice (Option GoError)) :=
  match keys with
  | [] => Outcome.panic
  | name :: _ =>
    let searchUrl := w.endpoint ++ w.searchPath ++ w.queryEscape name
    let errors : GoSlice (Option GoError) := GoSlice.make 2 none
    match w.httpGet searchUrl with
    | Except.error err => Outcome.ret (GoSlice.nil, errors.append (some err))
    | Except.ok res =>
      match w.readAll res with
      | Except.error err => Outcome.ret (GoSlice.nil, errors.append (some err))
      | Except.ok jsonData =>
        match w.unmarshal jsonData with
        | Except.error err => Outcome.ret (GoSlice.nil, errors.append (some err))
        | Except.ok none => Outcome.panic
        | Except.ok (some result) => Outcome.ret (result.Peoples, GoSlice.nil)

/-- The value of `maxBatch` in the loader `Middleware` builds. -/
def middlewareMaxBatch : Int := 100

/-! ## The loader as a transition system -/

/-- The events on one loader: a `LoadThunk` registration, and the firing of the timer
goroutine of the batch at `b`. -/
inductive Event where
  | load (key : String) : Event
  | timer (b : Nat) : Event
deriving DecidableEq, Repr

/-- One event.  A timer fires only for a batch with a spawned timer goroutine that has not
run yet; firing uses it up. -/
def step (l : PeopleLoader) : Event → PeopleLoader
  | Event.load key => (LoadThunk l key).1
  | Event.timer b =>
    match l.heap[b]? with
    | none => l
    | some bt =>
      if bt.timers = 0 then l
      else startTimer { l with heap := l.heap.set b { bt with timers := bt.timers - 1 } } b

/-- A sequence of events, first to last. -/
def run (l : PeopleLoader) : List Event → PeopleLoader
  | [] => l
  | e :: es => run (step l e) es

/-- A loader on which nothing was loaded yet: no batch was ever allocated.  The cache may
hold entries (from `Prime`). -/
def freshLoader (maxBatch : Int) (cache : GoMap) : PeopleLoader :=
  { maxBatch := maxBatch, cache := cache, batch := none, heap := [] }

/-- The `end` goroutine of the batch at `b` runs: `batchEnd` on that batch of the heap. -/
def runEnd
    (fetch : List String → Outcome (GoSlice (Option People) × GoSlice (Option GoError)))
    (l : PeopleLoader) (b : Nat) : Outcome PeopleLoader :=
  match l.heap[b]? with
  | none => Outcome.panic
  | some bt =>
    match batchEnd fetch bt with
    | Outcome.ret bt1 => Outcome.ret { l with heap := l.heap.set b bt1 }
    | Outcome.panic => Outcome.panic
    | Outcome.blocked => Outcome.blocked

/-- The batch after `keyIndex` appended `key` at its end: the first key spawns the timer. -/
def appended (bt : peopleLoaderBatch) (key : String) : peopleLoaderBatch :=
  { bt with keys := bt.keys ++ [key],
            timers := if bt.keys.length = 0 then bt.timers + 1 else bt.timers }

/-! ## Concrete data for the examples -/

/-- A person of the examples. -/
def luke : People :=
  { Name := "Luke Skywalker", Height := "172", Mass := "77", Gender := "male",
    Homeworld := "https://swapi.dev/api/planets/1/" }

/-- Another person of the examples. -/
def leia : People :=
  { Name := "Leia Organa", Height := "150", Mass := "49", Gender := "female",
    Homeworld := "https://swapi.dev/api/planets/2/" }

/-- The error of a refused connection. -/
def connRefused : GoError := { msg := "dial tcp: connection refused" }

/-- A backend whose `http.Get` fails. -/
def downBackend : Backend :=
  { endpoint := "https://swapi.dev/api/", searchPath := "people/?search=",
    queryEscape := fun name => name,
    httpGet := fun _ => Except.error connRefused,
    readAll := fun body => Except.ok body,
    unmarshal := fun _ => Except.ok (some { Peoples := GoSlice.nil }) }

/-- The people a search for `name` finds, in the examples. -/
def searchTable (name : String) : List (Option People) :=
  if name = "luke" then [some luke] else if name = "leia" then [some leia] else []

/-- A backend that works: the search endpoint answers the search for `name` with
`search name` (the response body is taken to be the name searched for). -/
def searchBackend (search : String → List (Option People)) : Backend :=
  { endpoint := "", searchPath := "",
    queryEscape := fun name => name,
    httpGet := fun url => Except.ok url,
    readAll := fun body => Except.ok body,
    unmarshal := fun jsonData => Except.ok (some { Peoples := GoSlice.mk (search jsonData) }) }

/-- A dispatched batch of one key whose fetch returned one result and the error sequence
`[]error{nil}`. -/
def oneKeyNilError : peopleLoaderBatch :=
  { newBatch with keys := ["luke"], data := GoSlice.mk [some luke],
                  error := GoSlice.mk [none], done := true, ends := 1 }

/-- A dispatched batch of one key whose fetch returned one result and an empty, non-nil
error sequence. -/
def oneKeyEmptyErrors : peopleLoaderBatch :=
  { newBatch with keys := ["luke"], data := GoSlice.mk [some luke],
                  error := GoSlice.mk [], done := true, ends := 1 }

/-- A dispatched batch of two keys whose fetch returned one error for both. -/
def twoKeysOneError : peopleLoaderBatch :=
  { newBatch with keys := ["luke", "leia"], data := GoSlice.nil,
                  error := GoSlice.mk [some connRefused], done := true, ends := 1 }

/-- A dispatched batch of two keys whose fetch returned two results and the nil error
sequence. -/
def twoKeysNoError : peopleLoaderBatch :=
  { newBatch with keys := ["luke", "leia"], data := GoSlice.mk [some luke, some leia],
                  error := GoSlice.nil, done := true, ends := 1 }

/-- A dispatched batch of three keys whose fetch returned three results and an error
sequence of length two. -/
def threeKeysTwoErrors : peopleLoaderBatch :=
  { newBatch with keys := ["luke", "leia", "han"],
                  data := GoSlice.mk [some luke, some leia, none],
                  error := GoSlice.mk [none, none], done := true, ends := 1 }

/-- A dispatched batch of four keys whose fetch was the callback of `Middleware` against
`downBackend`. -/
def fourKeysDown : peopleLoaderBatch :=
  { newBatch with keys := ["luke", "leia", "han", "yoda"], data := GoSlice.nil,
                  error := GoSlice.mk [none, none, some connRefused], done := true,
                  ends := 1 }

/-- The loader of one request after `Load("luke")` registered its key. -/
def downLoaded : PeopleLoader :=
  step (NewPeopleLoader middlewareMaxBatch) (Event.load "luke")

/-- The loader `downLoaded` after the timer of its batch fired. -/
def downFired : PeopleLoader :=
  step downLoaded (Event.timer 0)

/-- The loader `downFired` after the `end` routine ran against `downBackend`. -/
def downEnded : PeopleLoader :=
  { maxBatch := 100, cache := GoMap.nil, batch := none,
    heap := [{ keys := ["luke"], data := GoSlice.nil,
               error := GoSlice.mk [none, none, some connRefused],
               closing := false, done := true, timers := 0, ends := 1 }] }

/-- The batch `["luke", "leia"]` after its `end` routine ran against
`searchBackend searchTable`. -/
def searchEnded : peopleLoaderBatch :=
  { newBatch with keys := ["luke", "leia"], data := GoSlice.mk [some luke],
                  error := GoSlice.nil, done := true, ends := 1 }

/-! ## Invariants of the transition system -/

/-- What holds of the loader's open batch: not closing, `end` not invoked, its timer
pending, at least one key. -/
def OpenOK (bt : peopleLoaderBatch) : Prop :=
  bt.closing = false ∧ bt.ends = 0 ∧ bt.timers = 1 ∧ bt.keys ≠ []

/-- What holds of a batch the loader let go of: `end` was invoked once, and a timer is
pending only if the batch was closed by size. -/
def DetachedOK (bt : peopleLoaderBatch) : Prop :=
  bt.ends = 1 ∧ bt.keys ≠ [] ∧ bt.timers ≤ 1 ∧ (bt.closing = false → bt.timers = 0)

/-- The size test of `keyIndex` on a batch about to get one more key: `maxBatch` is set, the
new key's position reaches `maxBatch - 1`, and the batch is not closing yet. -/
def sizeHit (maxBatch : Int) (bt : peopleLoaderBatch) : Prop :=
  (maxBatch ≠ 0 ∧ (bt.keys.length : Int) ≥ subInt64 maxBatch 1) ∧ bt.closing = false

/-- The shapes a step of the loader can take. -/
inductive Trans (s : PeopleLoader) : PeopleLoader → Prop where
  | same : Trans s s
  | grow (b : Nat) (bt : peopleLoaderBatch) (key : String) (hb : s.batch = some b)
      (hh : s.heap[b]? = some bt) (hf : findKey key bt.keys = none)
      (hno : ¬ sizeHit s.maxBatch bt) :
      Trans s { s with heap := s.heap.set b (appended bt key) }
  | growClose (b : Nat) (bt : peopleLoaderBatch) (key : String) (hb : s.batch = some b)
      (hh : s.heap[b]? = some bt) (hf : findKey key bt.keys = none)
      (hhit : sizeHit s.maxBatch bt) :
      Trans s { s with batch := none,
                       heap := s.heap.set b { appended bt key with closing := true,
                                                                   ends := bt.ends + 1 } }
  | alloc (key : String) (hb : s.batch = none) (hno : ¬ sizeHit s.maxBatch newBatch) :
      Trans s { s with batch := some s.heap.length,
                       heap := s.heap ++ [appended newBatch key] }
  | allocClose (key : String) (hb : s.batch = none) (hhit : sizeHit s.maxBatch newBatch) :
      Trans s { s with batch := none,
                       heap := s.heap ++ [{ appended newBatch key with closing := true,
                                                                       ends := 1 }] }
  | timeout (b : Nat) (bt : peopleLoaderBatch) (hh : s.heap[b]? = some bt)
      (ht : bt.timers ≠ 0) (hc : bt.closing = false) :
      Trans s { s with batch := none,
                       heap := s.heap.set b { bt with timers := bt.timers - 1,
                                                      ends := bt.ends + 1 } }
  | timerLate (b : Nat) (bt : peopleLoaderBatch) (hh : s.heap[b]? = some bt)
      (ht : bt.timers ≠ 0) (hc : bt.closing = true) :
      Trans s { s with heap := s.heap.set b { bt with timers := bt.timers - 1 } }

/-- The invariant of the loader's batches. -/
def Inv (s : PeopleLoader) : Prop :=
  (∀ b bt, s.heap[b]? = some bt →
    (s.batch = some b → OpenOK bt) ∧ (s.batch ≠ some b → DetachedOK bt)) ∧
  (∀ b, s.batch = some b → b < s.heap.length)

/-- The batch `bt1` is `bt` up to the count of pending timers. -/
def sameButTimers (bt bt1 : peopleLoaderBatch) : Prop :=
  bt1.keys = bt.keys ∧ bt1.data = bt.data ∧ bt1.error = bt.error ∧ bt1.closing = bt.closing ∧
    bt1.done = bt.done ∧ bt1.ends = bt.ends

/-- With `maxBatch = m`: at most `m` keys, and closing exactly with `m` keys. -/
def SizeOK (m : Int) (bt : peopleLoaderBatch) : Prop :=
  (bt.keys.length : Int) ≤ m ∧ (bt.closing = true ↔ (bt.keys.length : Int) = m)

/-! ## Basic facts: cache, key scan -/

theorem lookup_assign_self (entries : List (String × Option People)) (key : String)
    (value : Option People) :
    (GoMap.mk (GoMap.assign entries key value)).lookup key = some value := by
  simp [GoMap.lookup, GoMap.assign, List.lookup]

theorem lookup_filter_ne (entries : List (String × Option People)) (key k : String)
    (hk : k ≠ key) :
    (entries.filter (fun e => e.1 ≠ key)).lookup k = entries.lookup k := by
  induction entries with
  | nil => rfl
  | cons e es ih =>
    obtain ⟨k1, v1⟩ := e
    by_cases h1 : k1 = key
    · subst h1
      have hne : (k == k1) = false := by simpa using hk
      simpa [List.filter, List.lookup, hne] using ih
    · by_cases h2 : k = k1
      · subst h2
        simp [List.filter, List.lookup, h1]
      · have hne : (k == k1) = false := by simpa using h2
        simpa [List.filter, List.lookup, h1, hne] using ih

theorem lookup_assign_ne (entries : List (String × Option People)) (key k : String)
    (value : Option People) (hk : k ≠ key) :
    (GoMap.mk (GoMap.assign entries key value)).lookup k = (GoMap.mk entries).lookup k := by
  have hne : (k == key) = false := by simpa using hk
  simpa [GoMap.lookup, GoMap.assign, List.lookup, hne] using lookup_filter_ne entries key k hk

theorem lookup_unsafeSet_self (l : PeopleLoader) (key : String) (value : Option People) :
    (unsafeSet l key value).cache.lookup key = some value := by
  unfold unsafeSet
  cases hc : l.cache with
  | nil => exact lookup_assign_self [] key value
  | mk entries => exact lookup_assign_self entries key value

theorem lookup_unsafeSet_ne (l : PeopleLoader) (key k : String) (value : Option People)
    (hk : k ≠ key) :
    (unsafeSet l key value).cache.lookup k = l.cache.lookup k := by
  unfold unsafeSet
  cases hc : l.cache with
  | nil => simpa [GoMap.lookup] using lookup_assign_ne [] key k value hk
  | mk entries => exact lookup_assign_ne entries key k value hk

theorem unsafeSet_batch (l : PeopleLoader) (key : String) (value : Option People) :
    (unsafeSet l key value).batch = l.batch ∧ (unsafeSet l key value).heap = l.heap ∧
      (unsafeSet l key value).maxBatch = l.maxBatch := by
  unfold unsafeSet
  cases l.cache <;> simp

theorem findKey_eq_none (key : String) (keys : List String) :
    findKey key keys = none ↔ key ∉ keys := by
  induction keys with
  | nil => simp [findKey]
  | cons k ks ih =>
    by_cases h : key = k
    · simp [findKey, h]
    · simp [findKey, h, ih]

theorem findKey_some (key : String) (keys : List String) (i : Nat)
    (h : findKey key keys = some i) : keys[i]? = some key := by
  induction keys generalizing i with
  | nil => simp [findKey] at h
  | cons k ks ih =>
    by_cases hk : key = k
    · simp [findKey, hk] at h
      subst h
      simp [hk]
    · simp [findKey, hk] at h
      obtain ⟨j, hj, rfl⟩ := h
      simpa using ih j hj

theorem findKey_append_self (key : String) (keys : List String) (h : key ∉ keys) :
    findKey key (keys ++ [key]) = some keys.length := by
  induction keys with
  | nil => simp [findKey]
  | cons k ks ih =>
    have hk : key ≠ k := fun e => h (by simp [e])
    have hks : key ∉ ks := fun e => h (by simp [e])
    simp [findKey, hk, ih hks]

theorem nodup_index_unique (keys : List String) (hnd : keys.Nodup) (key : String) (i j : Nat)
    (hi : keys[i]? = some key) (hj : keys[j]? = some key) : i = j := by
  obtain ⟨hi1, hi2⟩ := List.getElem?_eq_some.mp hi
  obtain ⟨hj1, hj2⟩ := List.getElem?_eq_some.mp hj
  exact (List.Nodup.getElem_inj_iff hnd).mp (hi2.trans hj2.symm)

theorem lookup_delete_ne (c : GoMap) (key k : String) (hk : k ≠ key) :
    (c.delete key).lookup k = c.lookup k := by
  cases c with
  | nil => rfl
  | mk entries => exact lookup_filter_ne entries key k hk

theorem keyIndex_cache (l : PeopleLoader) (b : Nat) (key : String) :
    (keyIndex l b key).1.cache = l.cache ∧ (keyIndex l b key).1.maxBatch = l.maxBatch := by
  unfold keyIndex
  split
  · simp
  · split
    · simp
    · simp only
      split_ifs <;> simp

theorem LoadThunk_cache (l : PeopleLoader) (key : String) :
    (LoadThunk l key).1.cache = l.cache ∧ (LoadThunk l key).1.maxBatch = l.maxBatch := by
  unfold LoadThunk
  split
  · simp
  · split
    · simpa using keyIndex_cache _ _ key
    · simpa using keyIndex_cache _ _ key

theorem startTimer_cache (l : PeopleLoader) (b : Nat) :
    (startTimer l b).cache = l.cache ∧ (startTimer l b).maxBatch = l.maxBatch := by
  unfold startTimer
  split
  · simp
  · split_ifs <;> simp

theorem step_cache (l : PeopleLoader) (e : Event) :
    (step l e).cache = l.cache ∧ (step l e).maxBatch = l.maxBatch := by
  cases e with
  | load key => exact LoadThunk_cache l key
  | timer b =>
    simp only [step]
    split
    · simp
    · split_ifs
      · simp
      · simpa using startTimer_cache _ b

theorem run_cache (l : PeopleLoader) (es : List Event) :
    (run l es).cache = l.cache ∧ (run l es).maxBatch = l.maxBatch := by
  induction es generalizing l with
  | nil => simp [run]
  | cons e es ih =>
    have h1 := ih (step l e)
    have h2 := step_cache l e
    simp only [run]
    exact ⟨h1.1.trans h2.1, h1.2.trans h2.2⟩

theorem heap_set_self (heap : List peopleLoaderBatch) (b : Nat) (x : peopleLoaderBatch)
    (h : b < heap.length) : (heap.set b x)[b]? = some x := by
  simp [h]

theorem keyIndex_found (l : PeopleLoader) (b : Nat) (bt : peopleLoaderBatch) (key : String)
    (i : Nat) (hb : l.heap[b]? = some bt) (hf : findKey key bt.keys = some i) :
    keyIndex l b key = (l, i) := by
  simp [keyIndex, hb, hf]

theorem keyIndex_fresh (l : PeopleLoader) (b : Nat) (bt : peopleLoaderBatch) (key : String)
    (hb : l.heap[b]? = some bt) (hf : findKey key bt.keys = none) :
    keyIndex l b key =
      if (l.maxBatch ≠ 0 ∧ (bt.keys.length : Int) ≥ subInt64 l.maxBatch 1) ∧ bt.closing = false
      then ({ l with batch := none,
                     heap := l.heap.set b { appended bt key with closing := true,
                                                                 ends := bt.ends + 1 } },
            bt.keys.length)
      else ({ l with heap := l.heap.set b (appended bt key) }, bt.keys.length) := by
  unfold keyIndex
  rw [hb]
  simp only [hf, appended]
  obtain ⟨keys, data, error, closing, done, timers, ends⟩ := bt
  by_cases h1 : (l.maxBatch ≠ 0 ∧ ((keys.length : Nat) : Int) ≥ subInt64 l.maxBatch 1)
  · cases closing <;> cases keys <;> simp [h1]
  · cases closing <;> cases keys <;> simp [h1]

/-! ## The resolution step of `LoadThunk` -/

/-- C2 (amended): for a dispatched batch whose fetch returned an error sequence of length
exactly 1 holding a non-nil error `e`, the resolution step of `LoadThunk` returns that error
to the caller at every position, and the loader (its cache included) is the same before and
after: no key of the batch is inserted into the cache. -/
theorem resolve_uniform_error (l : PeopleLoader) (key : String) (batch : peopleLoaderBatch)
    (pos : Nat) (e : GoError) (hdone : batch.done = true)
    (herr : batch.error = GoSlice.mk [some e]) :
    ∃ data, resolve l key batch pos = Outcome.ret ((data, some e), l) := by
  refine ⟨if pos < batch.data.len then (batch.data.idx pos).getD none else none, ?_⟩
  simp [resolve, hdone, herr, GoSlice.len, GoSlice.idx]

/-- The uniform-error theorem at the second key of a batch of two whose fetch was refused. -/
theorem resolve_uniform_error_witness :
    twoKeysOneError.done = true ∧ twoKeysOneError.error = GoSlice.mk [some connRefused] ∧
      ∃ data, resolve (NewPeopleLoader 100) "leia" twoKeysOneError 1
        = Outcome.ret ((data, some connRefused), NewPeopleLoader 100) :=
  ⟨rfl, rfl,
    resolve_uniform_error (NewPeopleLoader 100) "leia" twoKeysOneError 1 connRefused rfl rfl⟩

/-- C2 as stated fails: a batch of one key whose fetch returned the error sequence
`[]error{nil}` (length 1) resolves with a nil error and writes the key into the cache. -/
theorem resolve_single_nil_error_caches :
    oneKeyNilError.keys.length = 1 ∧ oneKeyNilError.error.len = 1 ∧
      (NewPeopleLoader 100).cache.lookup "luke" = none ∧
      resolve (NewPeopleLoader 100) "luke" oneKeyNilError 0
        = Outcome.ret ((some luke, none),
            { NewPeopleLoader 100 with cache := GoMap.mk [("luke", some luke)] }) ∧
      (GoMap.mk [("luke", some luke)]).lookup "luke" = some (some luke) := by
  decide

/-- The nil error sequence is the success case: for a dispatched batch of k keys whose fetch
returned k results and the nil error sequence, the resolution step of `LoadThunk` at every position `pos < k` returns
`(results[pos], nil)` and writes `results[pos]` into the cache under that key. -/
theorem resolve_nil_errors (l : PeopleLoader) (key : String) (batch : peopleLoaderBatch)
    (pos : Nat) (hdone : batch.done = true) (herr : batch.error = GoSlice.nil)
    (hlen : batch.data.len = batch.keys.length) (hpos : pos < batch.keys.length) :
    ∃ d, batch.data.idx pos = some d ∧
      resolve l key batch pos = Outcome.ret ((d, none), unsafeSet l key d) ∧
      (unsafeSet l key d).cache.lookup key = some d := by
  have hp : pos < batch.data.len := by omega
  cases hd : batch.data with
  | nil => simp [hd, GoSlice.len] at hp
  | mk elems =>
    have hp2 : pos < elems.length := by simpa [hd, GoSlice.len] using hp
    refine ⟨elems[pos], by simp [GoSlice.idx, hp2], ?_, lookup_unsafeSet_self l key _⟩
    simp [resolve, hdone, herr, hd, GoSlice.len, GoSlice.idx, hp2]

/-- The nil-error theorem at the second key of a batch of two. -/
theorem resolve_nil_errors_witness :
    twoKeysNoError.done = true ∧ twoKeysNoError.error = GoSlice.nil ∧
      twoKeysNoError.data.len = twoKeysNoError.keys.length ∧ 1 < twoKeysNoError.keys.length ∧
      ∃ d, twoKeysNoError.data.idx 1 = some d ∧
        resolve (NewPeopleLoader 100) "leia" twoKeysNoError 1
          = Outcome.ret ((d, none), unsafeSet (NewPeopleLoader 100) "leia" d) ∧
        (unsafeSet (NewPeopleLoader 100) "leia" d).cache.lookup "leia" = some d :=
  ⟨rfl, rfl, rfl, by decide,
    resolve_nil_errors (NewPeopleLoader 100) "leia" twoKeysNoError 1 rfl rfl rfl (by decide)⟩

/-- C3 fails on the code: for a batch of one key whose fetch returned one result and an empty,
non-nil error sequence (length 0), the resolution step at position 0 passes the test
`batch.error != nil`, indexes `batch.error[0]` without a bounds check and panics, although
the read of `batch.data` just before is guarded.  On the same batch with the nil error
sequence it returns `(results[0], nil)` and writes the key into the cache. -/
theorem resolve_empty_errors_panics :
    oneKeyEmptyErrors.keys.length = 1 ∧ oneKeyEmptyErrors.data.len = 1 ∧
      oneKeyEmptyErrors.error = GoSlice.mk [] ∧ oneKeyEmptyErrors.error.len = 0 ∧
      resolve (NewPeopleLoader 100) "luke" oneKeyEmptyErrors 0 = Outcome.panic ∧
      resolve (NewPeopleLoader 100) "luke" { oneKeyEmptyErrors with error := GoSlice.nil } 0
        = Outcome.ret ((some luke, none),
            { NewPeopleLoader 100 with cache := GoMap.mk [("luke", some luke)] }) := by
  decide

/-- C4 fails on the code: the resolution step guards the read of `batch.data` but not the
read of `batch.error`.  For a batch of three keys whose fetch returned three results and an
error sequence of length two, the resolution step at position 2 indexes `batch.error[2]` and
panics.  The callback of `Middleware` itself returns such a sequence: when `http.Get` fails
for a batch of four keys the error sequence has length 3, and the thunk at position 3
panics. -/
theorem resolve_short_errors_panics :
    threeKeysTwoErrors.keys.length = 3 ∧ threeKeysTwoErrors.data.len = 3 ∧
      threeKeysTwoErrors.error.len = 2 ∧
      resolve (NewPeopleLoader 100) "han" threeKeysTwoErrors 2 = Outcome.panic ∧
      batchEnd (middlewareFetch downBackend)
          { newBatch with keys := ["luke", "leia", "han", "yoda"], ends := 1 }
        = Outcome.ret fourKeysDown ∧
      fourKeysDown.keys.length = 4 ∧ fourKeysDown.error.len = 3 ∧
      resolve (NewPeopleLoader middlewareMaxBatch) "yoda" fourKeysDown 3 = Outcome.panic := by
  decide

/-! ## `keyIndex` -/

/-- C8: `keyIndex` on a batch with a duplicate-free key list keeps the list duplicate-free
and returns a position `pos` at which `key` stands after the call.  If the key was present, the
key list (indeed the whole loader) is unchanged and `pos` is its one existing index; otherwise
the new list is the old one with `key` appended and `pos` is the old length.  Positions handed
out before still hold the same key, and registering the same key again in that batch gives the
same position and changes nothing. -/
theorem keyIndex_spec (l : PeopleLoader) (b : Nat) (bt : peopleLoaderBatch) (key : String)
    (hb : l.heap[b]? = some bt) (hnd : bt.keys.Nodup) :
    ∃ bt1, (keyIndex l b key).1.heap[b]? = some bt1 ∧
      bt1.keys.Nodup ∧
      bt1.keys[(keyIndex l b key).2]? = some key ∧
      (key ∈ bt.keys → bt1.keys = bt.keys ∧ (keyIndex l b key).1 = l ∧
        bt.keys[(keyIndex l b key).2]? = some key ∧
        ∀ i, bt.keys[i]? = some key → i = (keyIndex l b key).2) ∧
      (key ∉ bt.keys → bt1.keys = bt.keys ++ [key] ∧ (keyIndex l b key).2 = bt.keys.length) ∧
      (∀ i, i < bt.keys.length → bt1.keys[i]? = bt.keys[i]?) ∧
      keyIndex (keyIndex l b key).1 b key = keyIndex l b key := by
  have hlt : b < l.heap.length := by
    obtain ⟨h, _⟩ := List.getElem?_eq_some.mp hb
    exact h
  cases hf : findKey key bt.keys with
  | some i =>
    have hmem : key ∈ bt.keys := by
      by_contra hn
      rw [(findKey_eq_none key bt.keys).mpr hn] at hf
      cases hf
    have hi := findKey_some key bt.keys i hf
    rw [keyIndex_found l b bt key i hb hf]
    refine ⟨bt, hb, hnd, hi, ?_, ?_, ?_, ?_⟩
    · intro _
      exact ⟨rfl, rfl, hi, fun j hj => nodup_index_unique bt.keys hnd key j i hj hi⟩
    · intro hn
      exact absurd hmem hn
    · intro i _
      rfl
    · exact keyIndex_found l b bt key i hb hf
  | none =>
    have hmem : key ∉ bt.keys := (findKey_eq_none key bt.keys).mp hf
    have hnd1 : (bt.keys ++ [key]).Nodup := by
      rw [List.nodup_append]
      refine ⟨hnd, List.nodup_singleton key, ?_⟩
      intro a ha hb1
      rw [List.mem_singleton] at hb1
      exact hmem (hb1 ▸ ha)
    have hat : (bt.keys ++ [key])[bt.keys.length]? = some key := by simp
    have hpre : ∀ i, i < bt.keys.length → (bt.keys ++ [key])[i]? = bt.keys[i]? := by
      intro i hi
      exact List.getElem?_append_left hi
    have hfind : findKey key (bt.keys ++ [key]) = some bt.keys.length :=
      findKey_append_self key bt.keys hmem
    rw [keyIndex_fresh l b bt key hb hf]
    split_ifs with hc
    · refine ⟨{ appended bt key with closing := true, ends := bt.ends + 1 }, ?_, hnd1, hat,
        fun h => absurd h hmem, fun _ => ⟨rfl, rfl⟩, hpre, ?_⟩
      · exact heap_set_self _ _ _ hlt
      · exact keyIndex_found _ b _ key _ (heap_set_self _ _ _ hlt) hfind
    · refine ⟨appended bt key, ?_, hnd1, hat,
        fun h => absurd h hmem, fun _ => ⟨rfl, rfl⟩, hpre, ?_⟩
      · exact heap_set_self _ _ _ hlt
      · exact keyIndex_found _ b _ key _ (heap_set_self _ _ _ hlt) hfind

/-- The `keyIndex` theorem on the open batch `["luke", "leia"]` and the new key `"han"`. -/
theorem keyIndex_spec_witness :
    (run (NewPeopleLoader 100) [Event.load "luke", Event.load "leia"]).heap[0]?
        = some { newBatch with keys := ["luke", "leia"], timers := 1 } ∧
      ["luke", "leia"].Nodup ∧
      ∃ bt1, (keyIndex (run (NewPeopleLoader 100) [Event.load "luke", Event.load "leia"]) 0
                "han").1.heap[0]? = some bt1 ∧
        bt1.keys = ["luke", "leia", "han"] ∧
        (keyIndex (run (NewPeopleLoader 100) [Event.load "luke", Event.load "leia"]) 0 "han").2
          = 2 := by
  have h := keyIndex_spec (run (NewPeopleLoader 100) [Event.load "luke", Event.load "leia"]) 0
    { newBatch with keys := ["luke", "leia"], timers := 1 } "han" (by decide) (by decide)
  obtain ⟨bt1, h1, _, _, _, h5, _, _⟩ := h
  refine ⟨by decide, by decide, bt1, h1, ?_, ?_⟩
  · exact (h5 (by decide)).1
  · exact (h5 (by decide)).2

/-! ## The cache: hits and `Prime` -/

theorem resolve_ret_nil_caches (l l1 : PeopleLoader) (key : String) (batch : peopleLoaderBatch)
    (pos : Nat) (v : Option People)
    (h : resolve l key batch pos = Outcome.ret ((v, none), l1)) :
    l1 = unsafeSet l key v := by
  unfold resolve at h
  by_cases hd : batch.done = false
  · simp [hd] at h
  · simp only [hd, if_false] at h
    generalize (if pos < batch.data.len then (batch.data.idx pos).getD none else none)
      = data at h
    generalize (if batch.error.len = 1 then batch.error.idx 0
      else if batch.error ≠ GoSlice.nil then batch.error.idx pos else some none) = err at h
    rcases err with _ | _ | e
    · simp at h
    · simp only [Bool.true_eq_false, if_false, Outcome.ret.injEq, Prod.mk.injEq,
        and_true] at h
      rw [← h.2, h.1]
    · simp at h

theorem LoadThunk_hit (l : PeopleLoader) (key : String) (v : Option People)
    (h : l.cache.lookup key = some v) : LoadThunk l key = (l, Thunk.hit v) := by
  simp [LoadThunk, h]

/-- C9: cache hits bypass batching.  Once a resolution step of `LoadThunk` for `key` has
returned `(v, nil)`, the cache maps `key` to `v`.  And on every loader state whose cache maps
`key` to `v`, `LoadThunk(key)` returns the pre-resolved thunk, which yields `(v, nil)`, and
the loader state is unchanged (same cache, same open batch, same batches: nothing created,
appended or closed), so `Load(key)` returns `(v, nil)` and invokes no `end` routine.  The
entry stays in the cache through `Clear` of another key, `Prime` of any key, and every
registration and timer event. -/
theorem cache_hit_bypasses_batching (l : PeopleLoader) (key : String) (v : Option People) :
    (∀ batch pos l1, resolve l key batch pos = Outcome.ret ((v, none), l1) →
        l1.cache.lookup key = some v) ∧
    (l.cache.lookup key = some v →
        LoadThunk l key = (l, Thunk.hit v) ∧
        Thunk.run l (Thunk.hit v) = Outcome.ret ((v, none), l) ∧
        Load l key = Outcome.ret ((v, none), l) ∧
        step l (Event.load key) = l ∧
        (∀ k, k ≠ key → (Clear l k).cache.lookup key = some v) ∧
        (∀ e, (step l e).cache.lookup key = some v) ∧
        (∀ k value, Prime l k value = Outcome.panic ∨
          ∃ l1 ok, Prime l k value = Outcome.ret (l1, ok) ∧ l1.cache.lookup key = some v)) := by
  constructor
  · intro batch pos l1 h
    rw [resolve_ret_nil_caches l l1 key batch pos v h]
    exact lookup_unsafeSet_self l key v
  · intro h
    have hL := LoadThunk_hit l key v h
    refine ⟨hL, rfl, ?_, ?_, ?_, ?_, ?_⟩
    · simp [Load, hL, Thunk.run]
    · simp [step, hL]
    · intro k hk
      simp only [Clear]
      rw [lookup_delete_ne l.cache k key (Ne.symm hk)]
      exact h
    · intro e
      rw [(step_cache l e).1]
      exact h
    · intro k value
      unfold Prime
      cases hk : l.cache.lookup k with
      | some it => exact Or.inr ⟨l, false, rfl, h⟩
      | none =>
        cases value with
        | none => exact Or.inl rfl
        | some cpy =>
          refine Or.inr ⟨_, true, rfl, ?_⟩
          have hne : key ≠ k := by
            intro e
            rw [e, hk] at h
            cases h
          rw [lookup_unsafeSet_ne l k key (some cpy) hne]
          exact h

/-- The cache-hit theorem on the second key of a resolved batch of two, and on a loader
whose cache holds `"luke"`. -/
theorem cache_hit_bypasses_batching_witness :
    resolve (NewPeopleLoader 100) "leia" twoKeysNoError 1
        = Outcome.ret ((some leia, none), unsafeSet (NewPeopleLoader 100) "leia" (some leia)) ∧
      (unsafeSet (NewPeopleLoader 100) "leia" (some leia)).cache.lookup "leia"
        = some (some leia) ∧
      Load (unsafeSet (NewPeopleLoader 100) "leia" (some leia)) "leia"
        = Outcome.ret ((some leia, none), unsafeSet (NewPeopleLoader 100) "leia" (some leia)) :=
  ⟨by decide,
    (cache_hit_bypasses_batching (NewPeopleLoader 100) "leia" (some leia)).1
      twoKeysNoError 1 _ (by decide),
    ((cache_hit_bypasses_batching (unsafeSet (NewPeopleLoader 100) "leia" (some leia)) "leia"
      (some leia)).2 (by decide)).2.2.1⟩

/-- C10 (amended): `Prime` never overwrites.  If `key` is cached, `Prime(key, value)` returns
false and the loader, its cache included, is unchanged, whatever `value` is, nil included.  If
`key` is absent and `value` is a non-nil pointer `&v`, `Prime(key, &v)` returns true, the cache afterwards maps `key` to a copy of `v` with every
other entry as before, the batches are untouched, and the next `Load(key)` returns `(v, nil)`
through the pre-resolved thunk, without registering the key in any batch. -/
theorem prime_never_overwrites (l : PeopleLoader) (key : String) (v : People) :
    (∀ it, l.cache.lookup key = some it →
        ∀ value, Prime l key value = Outcome.ret (l, false)) ∧
    (l.cache.lookup key = none →
        Prime l key (some v) = Outcome.ret (unsafeSet l key (some v), true) ∧
        (unsafeSet l key (some v)).cache.lookup key = some (some v) ∧
        (∀ k, k ≠ key → (unsafeSet l key (some v)).cache.lookup k = l.cache.lookup k) ∧
        (unsafeSet l key (some v)).batch = l.batch ∧
        (unsafeSet l key (some v)).heap = l.heap ∧
        LoadThunk (unsafeSet l key (some v)) key
          = (unsafeSet l key (some v), Thunk.hit (some v)) ∧
        Load (unsafeSet l key (some v)) key
          = Outcome.ret ((some v, none), unsafeSet l key (some v))) := by
  constructor
  · intro it h value
    simp [Prime, h]
  · intro h
    have hs := lookup_unsafeSet_self l key (some v)
    have hL := LoadThunk_hit (unsafeSet l key (some v)) key (some v) hs
    refine ⟨by simp [Prime, h], hs, fun k hk => lookup_unsafeSet_ne l key k (some v) hk,
      (unsafeSet_batch l key (some v)).1, (unsafeSet_batch l key (some v)).2.1, hL, ?_⟩
    simp [Load, hL, Thunk.run]

/-- The `Prime` theorem on the empty loader, then on the loader it gives. -/
theorem prime_never_overwrites_witness :
    (NewPeopleLoader 100).cache.lookup "luke" = none ∧
      Prime (NewPeopleLoader 100) "luke" (some luke)
        = Outcome.ret (unsafeSet (NewPeopleLoader 100) "luke" (some luke), true) ∧
      (unsafeSet (NewPeopleLoader 100) "luke" (some luke)).cache.lookup "luke"
        = some (some luke) ∧
      Prime (unsafeSet (NewPeopleLoader 100) "luke" (some luke)) "luke" (some leia)
        = Outcome.ret (unsafeSet (NewPeopleLoader 100) "luke" (some luke), false) :=
  ⟨by decide,
    ((prime_never_overwrites (NewPeopleLoader 100) "luke" luke).2 (by decide)).1,
    ((prime_never_overwrites (NewPeopleLoader 100) "luke" luke).2 (by decide)).2.1,
    (prime_never_overwrites (unsafeSet (NewPeopleLoader 100) "luke" (some luke)) "luke"
      leia).1 (some luke) (by decide) (some leia)⟩

/-- C10 as stated fails: on a loader that has no entry for `"luke"`, `Prime("luke", nil)`
dereferences the nil pointer in `cpy := *value` and panics instead of returning true. -/
theorem prime_nil_on_absent_key_panics :
    (NewPeopleLoader 100).cache.lookup "luke" = none ∧
      Prime (NewPeopleLoader 100) "luke" none = Outcome.panic := by
  decide

/-! ## What the fetch callback of `Middleware` returns -/

/-- Whichever of `http.Get`, `ioutil.ReadAll` and `json.Unmarshal` fails with `err`, the
callback returns no results and the error sequence `[nil, nil, err]`. -/
theorem middlewareFetch_failure (w : Backend) (name : String) (rest : List String)
    (err : GoError)
    (h : w.httpGet (w.endpoint ++ w.searchPath ++ w.queryEscape name) = Except.error err ∨
      (∃ res, w.httpGet (w.endpoint ++ w.searchPath ++ w.queryEscape name) = Except.ok res ∧
        (w.readAll res = Except.error err ∨
          ∃ jsonData, w.readAll res = Except.ok jsonData ∧
            w.unmarshal jsonData = Except.error err))) :
    middlewareFetch w (name :: rest)
      = Outcome.ret (GoSlice.nil, GoSlice.mk [none, none, some err]) := by
  rcases h with h | ⟨res, h1, h2 | ⟨jsonData, h2, h3⟩⟩
  · simp [middlewareFetch, h, GoSlice.make, GoSlice.append]
  · simp [middlewareFetch, h1, h2, GoSlice.make, GoSlice.append]
  · simp [middlewareFetch, h1, h2, h3, GoSlice.make, GoSlice.append]

/-- On the error sequence `[nil, nil, err]` the thunks of positions 0 and 1 report success
with a nil value and write their key into the cache, position 2 gets `err`, and every later
position panics. -/
theorem resolve_failure_shape (l : PeopleLoader) (key : String) (batch : peopleLoaderBatch)
    (err : GoError) (hdone : batch.done = true) (hdata : batch.data = GoSlice.nil)
    (herr : batch.error = GoSlice.mk [none, none, some err]) :
    resolve l key batch 0 = Outcome.ret ((none, none), unsafeSet l key none) ∧
    resolve l key batch 1 = Outcome.ret ((none, none), unsafeSet l key none) ∧
    resolve l key batch 2 = Outcome.ret ((none, some err), l) ∧
    ∀ pos, 3 ≤ pos → resolve l key batch pos = Outcome.panic := by
  refine ⟨?_, ?_, ?_, ?_⟩
  · simp [resolve, hdone, hdata, herr, GoSlice.len, GoSlice.idx]
  · simp [resolve, hdone, hdata, herr, GoSlice.len, GoSlice.idx]
  · simp [resolve, hdone, hdata, herr, GoSlice.len, GoSlice.idx]
  · intro pos hpos
    obtain ⟨k, rfl⟩ : ∃ k, pos = k + 3 := ⟨pos - 3, by omega⟩
    simp [resolve, hdone, hdata, herr, GoSlice.len, GoSlice.idx]

/-- On success the callback returns the result list of the search for the first key, whatever
the other keys are. -/
theorem middlewareFetch_success (search : String → List (Option People)) (name : String)
    (rest : List String) :
    middlewareFetch (searchBackend search) (name :: rest)
      = Outcome.ret (GoSlice.mk (search name), GoSlice.nil) := by
  simp [middlewareFetch, searchBackend]

/-- C1 fails on the code: when `http.Get` fails, the callback returns the error sequence
`[nil, nil, err]` (`make([]error, 2)` followed by `append`), of length 3 and not 1.  For the
single key `"luke"` the thunk reads `batch.error[0]`, which is nil: it returns `(nil, nil)`
and writes `"luke"` into the cache. -/
theorem middleware_fetch_failure_reported_as_success :
    LoadThunk (NewPeopleLoader middlewareMaxBatch) "luke"
      = (downLoaded, Thunk.wait "luke" 0 0) ∧
    middlewareFetch downBackend ["luke"]
      = Outcome.ret (GoSlice.nil, GoSlice.mk [none, none, some connRefused]) ∧
    runEnd (middlewareFetch downBackend) downFired 0 = Outcome.ret downEnded ∧
    Thunk.run downEnded (Thunk.wait "luke" 0 0)
      = Outcome.ret ((none, none), { downEnded with cache := GoMap.mk [("luke", none)] }) ∧
    (GoMap.mk [("luke", none)]).lookup "luke" = some none := by
  decide

/-- C5 fails on the code: the callback searches for `keys[0]` only and returns that search's
result list as it is.  For the keys `["luke", "leia"]` it returns the one result of the search
for `"luke"`: the results sequence has length 1, not 2, and the thunk of `"leia"` at position 1
yields `(nil, nil)` although the search for `"leia"` has a result. -/
theorem middleware_fetch_searches_first_key_only :
    searchTable "luke" = [some luke] ∧ searchTable "leia" = [some leia] ∧
    middlewareFetch (searchBackend searchTable) ["luke", "leia"]
      = Outcome.ret (GoSlice.mk [some luke], GoSlice.nil) ∧
    batchEnd (middlewareFetch (searchBackend searchTable))
        { newBatch with keys := ["luke", "leia"], ends := 1 } = Outcome.ret searchEnded ∧
    searchEnded.data.len = 1 ∧ searchEnded.keys.length = 2 ∧
    resolve (NewPeopleLoader middlewareMaxBatch) "leia" searchEnded 1
      = Outcome.ret ((none, none),
          { NewPeopleLoader middlewareMaxBatch with cache := GoMap.mk [("leia", none)] }) := by
  decide

/-! ## The transition system: shapes of a step and invariants -/

theorem step_load_hit (s : PeopleLoader) (key : String) (it : Option People)
    (hc : s.cache.lookup key = some it) : step s (Event.load key) = s := by
  simp [step, LoadThunk, hc]

theorem step_load_present (s : PeopleLoader) (key : String) (b : Nat) (bt : peopleLoaderBatch)
    (i : Nat) (hc : s.cache.lookup key = none) (hb : s.batch = some b)
    (hh : s.heap[b]? = some bt) (hf : findKey key bt.keys = some i) :
    step s (Event.load key) = s := by
  simp [step, LoadThunk, hc, hb, keyIndex_found s b bt key i hh hf]

theorem step_load_append (s : PeopleLoader) (key : String) (b : Nat) (bt : peopleLoaderBatch)
    (hc : s.cache.lookup key = none) (hb : s.batch = some b)
    (hh : s.heap[b]? = some bt) (hf : findKey key bt.keys = none) :
    step s (Event.load key) =
      if (s.maxBatch ≠ 0 ∧ (bt.keys.length : Int) ≥ subInt64 s.maxBatch 1) ∧ bt.closing = false
      then { s with batch := none,
                    heap := s.heap.set b { appended bt key with closing := true,
                                                                ends := bt.ends + 1 } }
      else { s with heap := s.heap.set b (appended bt key) } := by
  simp only [step, LoadThunk, hc, hb]
  rw [keyIndex_fresh s b bt key hh hf]
  split_ifs <;> simp [hb]

theorem step_load_alloc (s : PeopleLoader) (key : String)
    (hc : s.cache.lookup key = none) (hb : s.batch = none) :
    step s (Event.load key) =
      if s.maxBatch ≠ 0 ∧ (0 : Int) ≥ subInt64 s.maxBatch 1
      then { s with batch := none,
                    heap := s.heap ++ [{ appended newBatch key with closing := true,
                                                                    ends := 1 }] }
      else { s with batch := some s.heap.length,
                    heap := s.heap ++ [appended newBatch key] } := by
  have hh : (s.heap ++ [newBatch])[s.heap.length]? = some newBatch := by simp
  simp only [step, LoadThunk, hc, hb]
  rw [keyIndex_fresh { s with batch := some s.heap.length, heap := s.heap ++ [newBatch] }
    s.heap.length newBatch key hh rfl]
  by_cases h : s.maxBatch ≠ 0 ∧ (0 : Int) ≥ subInt64 s.maxBatch 1
  · have h2 : (s.maxBatch ≠ 0 ∧ ((newBatch.keys.length : Nat) : Int) ≥ subInt64 s.maxBatch 1)
        ∧ newBatch.closing = false := ⟨h, rfl⟩
    rw [if_pos h, if_pos h2]
    simp [newBatch]
  · have h2 : ¬ ((s.maxBatch ≠ 0 ∧ ((newBatch.keys.length : Nat) : Int) ≥ subInt64 s.maxBatch 1)
        ∧ newBatch.closing = false) := fun h3 => h h3.1
    rw [if_neg h, if_neg h2]
    simp

theorem step_timer_fire (s : PeopleLoader) (b : Nat) (bt : peopleLoaderBatch)
    (hh : s.heap[b]? = some bt) (ht : bt.timers ≠ 0) :
    step s (Event.timer b) =
      if bt.closing = true
      then { s with heap := s.heap.set b { bt with timers := bt.timers - 1 } }
      else { s with batch := none,
                    heap := s.heap.set b { bt with timers := bt.timers - 1,
                                                   ends := bt.ends + 1 } } := by
  have hlt : b < s.heap.length := (List.getElem?_eq_some.mp hh).1
  simp only [step, hh, ht, if_false, startTimer, heap_set_self _ _ _ hlt]
  split_ifs <;> simp

theorem step_timer_idle (s : PeopleLoader) (b : Nat)
    (h : ∀ bt, s.heap[b]? = some bt → bt.timers = 0) : step s (Event.timer b) = s := by
  simp only [step]
  split
  · rfl
  · rename_i bt hbt
    simp [h bt hbt]


theorem inv_fresh (maxBatch : Int) (cache : GoMap) : Inv (freshLoader maxBatch cache) := by
  constructor
  · intro b bt h
    simp [freshLoader] at h
  · intro b h
    simp [freshLoader] at h

theorem inv_set (s : PeopleLoader) (hI : Inv s) (b : Nat) (p : Option Nat)
    (x : peopleLoaderBatch) (hlt : b < s.heap.length)
    (hp : p = s.batch ∨ (p = none ∧ s.batch = some b))
    (hx : (p = some b → OpenOK x) ∧ (p ≠ some b → DetachedOK x)) :
    Inv { s with batch := p, heap := s.heap.set b x } := by
  constructor
  · intro j bt hj
    simp only [List.getElem?_set] at hj
    by_cases hbj : b = j
    · subst hbj
      simp only [if_true, hlt] at hj
      cases hj
      exact hx
    · simp only [hbj, if_false] at hj
      have hold := hI.1 j bt hj
      rcases hp with hp | ⟨hp, hb⟩
      · simpa [hp] using hold
      · have hne : s.batch ≠ some j := by
          rw [hb]
          intro e
          exact hbj (Option.some.inj e)
        subst hp
        show (none = some j → OpenOK bt) ∧ (none ≠ some j → DetachedOK bt)
        exact ⟨fun e => (by cases e), fun _ => hold.2 hne⟩
  · intro j hj
    simp only [List.length_set]
    rcases hp with hp | ⟨hp, _⟩
    · exact hI.2 j (by simpa [hp] using hj)
    · simp [hp] at hj

theorem inv_push (s : PeopleLoader) (hI : Inv s) (p : Option Nat) (x : peopleLoaderBatch)
    (hb : s.batch = none) (hp : p = none ∨ p = some s.heap.length)
    (hx : (p = some s.heap.length → OpenOK x) ∧ (p ≠ some s.heap.length → DetachedOK x)) :
    Inv { s with batch := p, heap := s.heap ++ [x] } := by
  constructor
  · intro j bt hj
    by_cases hlt : j < s.heap.length
    · rw [List.getElem?_append_left hlt] at hj
      have hold := hI.1 j bt hj
      have hne : p ≠ some j := by
        rcases hp with hp | hp
        · simp [hp]
        · rw [hp]
          intro e
          have := Option.some.inj e
          omega
      exact ⟨fun e => absurd e hne, fun _ => hold.2 (by simp [hb])⟩
    · have hge : s.heap.length ≤ j := Nat.le_of_not_lt hlt
      rw [List.getElem?_append_right hge] at hj
      have hj0 : j - s.heap.length = 0 := by
        cases hk : j - s.heap.length with
        | zero => rfl
        | succ k =>
          rw [hk] at hj
          simp at hj
      rw [hj0] at hj
      simp only [List.getElem?_cons_zero, Option.some.injEq] at hj
      have hjl : j = s.heap.length := by omega
      subst hj
      subst hjl
      exact hx
  · intro j hj
    simp only at hj
    rcases hp with hp | hp
    · simp [hp] at hj
    · rw [hp] at hj
      have := Option.some.inj hj
      simp only [List.length_append, List.length_singleton]
      omega


theorem step_trans (s : PeopleLoader) (e : Event) : Trans s (step s e) := by
  cases e with
  | load key =>
    cases hc : s.cache.lookup key with
    | some it =>
      rw [step_load_hit s key it hc]
      exact Trans.same
    | none =>
      cases hb : s.batch with
      | none =>
        rw [step_load_alloc s key hc hb]
        split_ifs with h
        · exact Trans.allocClose key hb ⟨h, rfl⟩
        · exact Trans.alloc key hb (fun h2 => h h2.1)
      | some b =>
        cases hh : s.heap[b]? with
        | none =>
          have : step s (Event.load key) = s := by
            simp [step, LoadThunk, hc, hb, keyIndex, hh]
          rw [this]
          exact Trans.same
        | some bt =>
          cases hf : findKey key bt.keys with
          | some i =>
            rw [step_load_present s key b bt i hc hb hh hf]
            exact Trans.same
          | none =>
            rw [step_load_append s key b bt hc hb hh hf]
            split_ifs with h
            · exact Trans.growClose b bt key hb hh hf h
            · exact Trans.grow b bt key hb hh hf h
  | timer b =>
    cases hh : s.heap[b]? with
    | none =>
      rw [step_timer_idle s b (fun bt hbt => by rw [hh] at hbt; cases hbt)]
      exact Trans.same
    | some bt =>
      by_cases ht : bt.timers = 0
      · rw [step_timer_idle s b (fun bt2 hbt => by rw [hh] at hbt; cases hbt; exact ht)]
        exact Trans.same
      · rw [step_timer_fire s b bt hh ht]
        split_ifs with h
        · exact Trans.timerLate b bt hh ht h
        · exact Trans.timeout b bt hh ht (by simpa using h)

theorem inv_trans (s s1 : PeopleLoader) (hI : Inv s) (ht : Trans s s1) : Inv s1 := by
  cases ht with
  | same => exact hI
  | grow b bt key hb hh hf hno =>
    have hopen := (hI.1 b bt hh).1 hb
    refine inv_set s hI b s.batch _ (hI.2 b hb) (Or.inl rfl) ⟨fun _ => ?_, fun h => absurd hb h⟩
    obtain ⟨h1, h2, h3, h4⟩ := hopen
    have hlen : bt.keys.length ≠ 0 := fun e => h4 (List.length_eq_zero.mp e)
    exact ⟨h1, h2, by simp [appended, hlen, h3], by simp [appended]⟩
  | growClose b bt key hb hh hf hhit =>
    have hopen := (hI.1 b bt hh).1 hb
    refine inv_set s hI b none _ (hI.2 b hb) (Or.inr ⟨rfl, hb⟩)
      ⟨fun h => (by cases h), fun _ => ?_⟩
    obtain ⟨h1, h2, h3, h4⟩ := hopen
    have hlen : bt.keys.length ≠ 0 := fun e => h4 (List.length_eq_zero.mp e)
    exact ⟨by simp [h2], by simp [appended], by simp [appended, hlen, h3], by simp⟩
  | alloc key hb hno =>
    refine inv_push s hI (some s.heap.length) _ hb (Or.inr rfl) ⟨fun _ => ?_, fun h => absurd rfl h⟩
    exact ⟨rfl, rfl, rfl, by simp [appended]⟩
  | allocClose key hb hhit =>
    refine inv_push s hI none _ hb (Or.inl rfl) ⟨fun h => (by cases h), fun _ => ?_⟩
    exact ⟨rfl, by simp [appended], by simp [appended, newBatch], by simp⟩
  | timeout b bt hh ht hc =>
    have hlt : b < s.heap.length := (List.getElem?_eq_some.mp hh).1
    have hb : s.batch = some b := by
      by_contra hne
      exact ht (((hI.1 b bt hh).2 hne).2.2.2 hc)
    obtain ⟨h1, h2, h3, h4⟩ := (hI.1 b bt hh).1 hb
    refine inv_set s hI b none _ hlt (Or.inr ⟨rfl, hb⟩) ⟨fun h => (by cases h), fun _ => ?_⟩
    exact ⟨by simp [h2], h4, by simp [h3], fun _ => by simp [h3]⟩
  | timerLate b bt hh ht hc =>
    have hlt : b < s.heap.length := (List.getElem?_eq_some.mp hh).1
    have hne : s.batch ≠ some b := by
      intro hb
      have := ((hI.1 b bt hh).1 hb).1
      rw [hc] at this
      cases this
    obtain ⟨h1, h2, h3, h4⟩ := (hI.1 b bt hh).2 hne
    refine inv_set s hI b s.batch _ hlt (Or.inl rfl) ⟨fun h => absurd h hne, fun _ => ?_⟩
    exact ⟨h1, h2, by simp; omega, fun _ => by simp; omega⟩

theorem inv_run (s : PeopleLoader) (hI : Inv s) (evs : List Event) : Inv (run s evs) := by
  induction evs generalizing s with
  | nil => exact hI
  | cons e es ih => exact ih (step s e) (inv_trans s _ hI (step_trans s e))

theorem subInt64_one (m : Int) (hm : 0 < m) (hm64 : m < 2 ^ 63) : subInt64 m 1 = m - 1 := by
  unfold subInt64
  omega

theorem heap_set_same (heap : List peopleLoaderBatch) (b : Nat) (bt : peopleLoaderBatch)
    (h : heap[b]? = some bt) : heap.set b bt = heap := by
  apply List.ext_getElem?
  intro j
  rw [List.getElem?_set]
  by_cases hbj : b = j
  · subst hbj
    have hlt : b < heap.length := (List.getElem?_eq_some.mp h).1
    simp [hlt, h]
  · simp [hbj]

theorem detached_trans (s s1 : PeopleLoader) (hI : Inv s) (ht : Trans s s1) (b : Nat)
    (bt : peopleLoaderBatch) (hh : s.heap[b]? = some bt) (hne : s.batch ≠ some b) :
    s1.batch ≠ some b ∧ ∃ bt1, s1.heap[b]? = some bt1 ∧ sameButTimers bt bt1 := by
  have hlt : b < s.heap.length := (List.getElem?_eq_some.mp hh).1
  have hrefl : sameButTimers bt bt := ⟨rfl, rfl, rfl, rfl, rfl, rfl⟩
  have hother : ∀ c x, s.batch = some c → (s.heap.set c x)[b]? = some bt := by
    intro c x hc
    have hcb : c ≠ b := fun e => hne (e ▸ hc)
    rw [List.getElem?_set_ne hcb]
    exact hh
  cases ht with
  | same => exact ⟨hne, bt, hh, hrefl⟩
  | grow c ct key hb hc hf hno => exact ⟨hne, bt, hother c _ hb, hrefl⟩
  | growClose c ct key hb hc hf hhit =>
    exact ⟨fun e => (by cases e), bt, hother c _ hb, hrefl⟩
  | alloc key hb hno =>
    refine ⟨fun e => ?_, bt, ?_, hrefl⟩
    · have := Option.some.inj e
      omega
    · show (s.heap ++ _)[b]? = some bt
      rw [List.getElem?_append_left hlt]
      exact hh
  | allocClose key hb hhit =>
    refine ⟨fun e => (by cases e), bt, ?_, hrefl⟩
    show (s.heap ++ _)[b]? = some bt
    rw [List.getElem?_append_left hlt]
    exact hh
  | timeout c ct hc ht2 hcl =>
    have hb : s.batch = some c := by
      by_contra hn
      exact ht2 (((hI.1 c ct hc).2 hn).2.2.2 hcl)
    exact ⟨fun e => (by cases e), bt, hother c _ hb, hrefl⟩
  | timerLate c ct hc ht2 hcl =>
    refine ⟨hne, ?_⟩
    by_cases hcb : c = b
    · subst hcb
      rw [hh] at hc
      cases hc
      exact ⟨_, heap_set_self _ _ _ hlt, rfl, rfl, rfl, rfl, rfl, rfl⟩
    · refine ⟨bt, ?_, hrefl⟩
      show (s.heap.set c _)[b]? = some bt
      rw [List.getElem?_set_ne hcb]
      exact hh

theorem detached_run (s : PeopleLoader) (hI : Inv s) (evs : List Event) (b : Nat)
    (bt : peopleLoaderBatch) (hh : s.heap[b]? = some bt) (hne : s.batch ≠ some b) :
    (run s evs).batch ≠ some b ∧ ∃ bt1, (run s evs).heap[b]? = some bt1 ∧
      sameButTimers bt bt1 := by
  induction evs generalizing s bt with
  | nil => exact ⟨hne, bt, hh, rfl, rfl, rfl, rfl, rfl, rfl⟩
  | cons e es ih =>
    obtain ⟨h1, bt1, h2, h3⟩ := detached_trans s (step s e) hI (step_trans s e) b bt hh hne
    obtain ⟨h4, bt2, h5, h6⟩ := ih (step s e) (inv_trans s _ hI (step_trans s e)) bt1 h2 h1
    refine ⟨h4, bt2, h5, ?_⟩
    obtain ⟨a1, a2, a3, a4, a5, a6⟩ := h3
    obtain ⟨c1, c2, c3, c4, c5, c6⟩ := h6
    exact ⟨c1.trans a1, c2.trans a2, c3.trans a3, c4.trans a4, c5.trans a5, c6.trans a6⟩

/-- C6: in the step model of one loader (events: `LoadThunk` registrations and timer firings,
a timer firing only for a batch with a pending timer goroutine), from a loader on which nothing
was loaded yet and for every `maxBatch` and event sequence: every batch's `end` routine has
been invoked at most once, and exactly once for every batch the loader let go of; a timer
firing on a batch closed by size changes nothing but the count of pending timers; and once the
timer of the open batch fired, whatever events follow, that batch is never the open batch
again, its key list stays as it was, it is never marked closing and its count of `end`
invocations stays 1. -/
theorem end_invoked_at_most_once (maxBatch : Int) (cache : GoMap) (evs : List Event)
    (s : PeopleLoader) (hs : s = run (freshLoader maxBatch cache) evs) :
    (∀ b bt, s.heap[b]? = some bt → bt.ends ≤ 1 ∧ (s.batch ≠ some b → bt.ends = 1)) ∧
    (∀ b bt, s.heap[b]? = some bt → bt.closing = true →
      step s (Event.timer b)
        = { s with heap := s.heap.set b { bt with timers := bt.timers - 1 } }) ∧
    (∀ b, s.batch = some b →
      ∃ bt, s.heap[b]? = some bt ∧ bt.closing = false ∧ bt.ends = 0 ∧ bt.timers = 1 ∧
        ∀ evs2, (run (step s (Event.timer b)) evs2).batch ≠ some b ∧
          ∃ bt2, (run (step s (Event.timer b)) evs2).heap[b]? = some bt2 ∧
            bt2.keys = bt.keys ∧ bt2.closing = false ∧ bt2.ends = 1) := by
  have hI : Inv s := by
    rw [hs]
    exact inv_run _ (inv_fresh maxBatch cache) evs
  refine ⟨?_, ?_, ?_⟩
  · intro b bt hh
    by_cases hb : s.batch = some b
    · have h := ((hI.1 b bt hh).1 hb).2.1
      exact ⟨by omega, fun hne => absurd hb hne⟩
    · have h := ((hI.1 b bt hh).2 hb).1
      exact ⟨by omega, fun _ => h⟩
  · intro b bt hh hc
    by_cases ht : bt.timers = 0
    · rw [step_timer_idle s b (fun bt2 hbt => by rw [hh] at hbt; cases hbt; exact ht)]
      have hbt : { bt with timers := bt.timers - 1 } = bt := by
        cases bt
        simp only at ht
        subst ht
        rfl
      rw [hbt, heap_set_same s.heap b bt hh]
    · rw [step_timer_fire s b bt hh ht, if_pos hc]
  · intro b hb
    have hlt := hI.2 b hb
    obtain ⟨bt, hh⟩ : ∃ bt, s.heap[b]? = some bt := ⟨s.heap[b], List.getElem?_eq_getElem hlt⟩
    obtain ⟨h1, h2, h3, h4⟩ := (hI.1 b bt hh).1 hb
    refine ⟨bt, hh, h1, h2, h3, ?_⟩
    intro evs2
    have ht : bt.timers ≠ 0 := by omega
    have hstep := step_timer_fire s b bt hh ht
    rw [if_neg (by simp [h1])] at hstep
    have hI2 : Inv (step s (Event.timer b)) := inv_trans s _ hI (step_trans s _)
    have hh2 : (step s (Event.timer b)).heap[b]?
        = some { bt with timers := bt.timers - 1, ends := bt.ends + 1 } := by
      rw [hstep]
      exact heap_set_self _ _ _ hlt
    have hne2 : (step s (Event.timer b)).batch ≠ some b := by
      rw [hstep]
      intro e
      cases e
    obtain ⟨h5, bt2, h6, h7⟩ := detached_run _ hI2 evs2 b _ hh2 hne2
    refine ⟨h5, bt2, h6, h7.1, ?_, ?_⟩
    · rw [h7.2.2.2.1]
      exact h1
    · rw [h7.2.2.2.2.2]
      simp [h2]

theorem size_set (m : Int) (heap : List peopleLoaderBatch)
    (hS : ∀ (b : Nat) (bt : peopleLoaderBatch), heap[b]? = some bt → SizeOK m bt) (c : Nat) (x : peopleLoaderBatch)
    (hx : SizeOK m x) : ∀ (b : Nat) (bt : peopleLoaderBatch), (heap.set c x)[b]? = some bt → SizeOK m bt := by
  intro b bt hb
  rw [List.getElem?_set] at hb
  by_cases hcb : c = b
  · simp only [hcb, if_true] at hb
    split_ifs at hb
    cases hb
    exact hx
  · simp only [hcb, if_false] at hb
    exact hS b bt hb

theorem size_push (m : Int) (heap : List peopleLoaderBatch)
    (hS : ∀ (b : Nat) (bt : peopleLoaderBatch), heap[b]? = some bt → SizeOK m bt) (x : peopleLoaderBatch)
    (hx : SizeOK m x) : ∀ (b : Nat) (bt : peopleLoaderBatch), (heap ++ [x])[b]? = some bt → SizeOK m bt := by
  intro b bt hb
  by_cases hlt : b < heap.length
  · rw [List.getElem?_append_left hlt] at hb
    exact hS b bt hb
  · rw [List.getElem?_append_right (Nat.le_of_not_lt hlt)] at hb
    cases hk : b - heap.length with
    | zero =>
      rw [hk] at hb
      simp only [List.getElem?_cons_zero, Option.some.injEq] at hb
      rw [← hb]
      exact hx
    | succ k =>
      rw [hk] at hb
      simp at hb

theorem size_trans (m : Int) (hm : 0 < m) (hm64 : m < 2 ^ 63) (s s1 : PeopleLoader)
    (hmax : s.maxBatch = m) (hI : Inv s)
    (hS : ∀ (b : Nat) (bt : peopleLoaderBatch), s.heap[b]? = some bt → SizeOK m bt) (ht : Trans s s1) :
    ∀ (b : Nat) (bt : peopleLoaderBatch), s1.heap[b]? = some bt → SizeOK m bt := by
  have hsub := subInt64_one m hm hm64
  cases ht with
  | same => exact hS
  | grow c ct key hb hc hf hno =>
    apply size_set m s.heap hS
    obtain ⟨h1, h2⟩ := hS c ct hc
    have hcl := ((hI.1 c ct hc).1 hb).1
    have hlen : (ct.keys.length : Int) ≠ m := fun e => by
      rw [h2.mpr e] at hcl
      cases hcl
    have hlt : (ct.keys.length : Int) < m - 1 := by
      by_contra hge
      apply hno
      rw [sizeHit, hmax, hsub]
      exact ⟨⟨by omega, by omega⟩, hcl⟩
    constructor
    · simp only [appended, List.length_append, List.length_singleton]
      push_cast
      omega
    · simp only [appended, List.length_append, List.length_singleton, hcl]
      push_cast
      constructor
      · intro h
        cases h
      · intro h
        omega
  | growClose c ct key hb hc hf hhit =>
    apply size_set m s.heap hS
    obtain ⟨h1, h2⟩ := hS c ct hc
    have hcl := ((hI.1 c ct hc).1 hb).1
    have hlen : (ct.keys.length : Int) ≠ m := fun e => by
      rw [h2.mpr e] at hcl
      cases hcl
    rw [sizeHit, hmax, hsub] at hhit
    have heq : (ct.keys.length : Int) + 1 = m := by omega
    constructor
    · simp only [appended, List.length_append, List.length_singleton]
      push_cast
      omega
    · simp only [appended, List.length_append, List.length_singleton]
      push_cast
      exact ⟨fun _ => heq, fun _ => trivial⟩
  | alloc key hb hno =>
    apply size_push m s.heap hS
    have hlt : (1 : Int) < m := by
      by_contra hge
      apply hno
      rw [sizeHit, hmax, hsub]
      exact ⟨⟨by omega, by simp [newBatch]; omega⟩, rfl⟩
    constructor
    · simp only [appended, newBatch, List.nil_append, List.length_singleton]
      push_cast
      omega
    · simp only [appended, newBatch, List.nil_append, List.length_singleton]
      push_cast
      constructor
      · intro h
        cases h
      · intro h
        omega
  | allocClose key hb hhit =>
    apply size_push m s.heap hS
    rw [sizeHit, hmax, hsub] at hhit
    have h0 : (newBatch.keys.length : Int) = 0 := by simp [newBatch]
    have heq : (1 : Int) = m := by omega
    constructor
    · simp only [appended, newBatch, List.nil_append, List.length_singleton]
      push_cast
      omega
    · simp only [appended, newBatch, List.nil_append, List.length_singleton]
      push_cast
      exact ⟨fun _ => heq, fun _ => trivial⟩
  | timeout c ct hc ht2 hcl => exact size_set m s.heap hS c _ (hS c ct hc)
  | timerLate c ct hc ht2 hcl => exact size_set m s.heap hS c _ (hS c ct hc)

theorem size_run (m : Int) (hm : 0 < m) (hm64 : m < 2 ^ 63) (s : PeopleLoader)
    (hmax : s.maxBatch = m) (hI : Inv s)
    (hS : ∀ (b : Nat) (bt : peopleLoaderBatch), s.heap[b]? = some bt → SizeOK m bt) (evs : List Event) :
    ∀ (b : Nat) (bt : peopleLoaderBatch), (run s evs).heap[b]? = some bt → SizeOK m bt := by
  induction evs generalizing s with
  | nil => exact hS
  | cons e es ih =>
    exact ih (step s e) ((step_cache s e).2.trans hmax) (inv_trans s _ hI (step_trans s e))
      (size_trans m hm hm64 s _ hmax hI hS (step_trans s e))

/-- C7: with `maxBatch = m`, `0 < m` (an `int`, so `m < 2^63`), from a loader on which
nothing was loaded yet and after every event sequence: every batch has at most `m` keys and is
marked closing exactly when it has `m` keys, in which case `end` was invoked once and the
loader let go of it, while the open batch has fewer than `m` keys and `end` not invoked.  The
registration of a new uncached key on the open batch only appends the key as long as fewer
than `m` keys result, and at the `m`-th key it also marks the batch closing, detaches it and
invokes `end`.  With no open batch the next uncached key starts a new batch.  Scenario `m = 2`:
after registering "a" and "b" the batch `["a", "b"]` is closed and dispatched, and "c" goes
to position 0 of a second batch, which stays open. -/
theorem size_triggered_flush (m : Int) (hm : 0 < m) (hm64 : m < 2 ^ 63) (cache : GoMap)
    (evs : List Event) (s : PeopleLoader) (hs : s = run (freshLoader m cache) evs) :
    (∀ (b : Nat) (bt : peopleLoaderBatch), s.heap[b]? = some bt →
      (bt.keys.length : Int) ≤ m ∧ (bt.closing = true ↔ (bt.keys.length : Int) = m) ∧
      (bt.closing = true → bt.ends = 1 ∧ s.batch ≠ some b) ∧
      (s.batch = some b → (bt.keys.length : Int) < m ∧ bt.ends = 0)) ∧
    (∀ (key : String) (b : Nat) (bt : peopleLoaderBatch), s.cache.lookup key = none →
      s.batch = some b → s.heap[b]? = some bt → key ∉ bt.keys →
      ((bt.keys.length : Int) + 1 < m →
        step s (Event.load key)
          = { s with heap := s.heap.set b { bt with keys := bt.keys ++ [key] } }) ∧
      ((bt.keys.length : Int) + 1 = m →
        step s (Event.load key)
          = { s with batch := none,
                     heap := s.heap.set b { bt with keys := bt.keys ++ [key],
                                                    closing := true, ends := 1 } })) ∧
    (∀ (key : String), s.cache.lookup key = none → s.batch = none →
      (1 < m →
        step s (Event.load key)
          = { s with batch := some s.heap.length,
                     heap := s.heap ++ [{ newBatch with keys := [key], timers := 1 }] }) ∧
      (m = 1 →
        step s (Event.load key)
          = { s with batch := none,
                     heap := s.heap ++ [{ newBatch with keys := [key], timers := 1,
                                                        closing := true, ends := 1 }] })) ∧
    (run (NewPeopleLoader 2) [Event.load "a", Event.load "b"]
        = { maxBatch := 2, cache := GoMap.nil, batch := none,
            heap := [{ newBatch with keys := ["a", "b"], closing := true, timers := 1,
                                     ends := 1 }] } ∧
      LoadThunk (run (NewPeopleLoader 2) [Event.load "a", Event.load "b"]) "c"
        = ({ maxBatch := 2, cache := GoMap.nil, batch := some 1,
             heap := [{ newBatch with keys := ["a", "b"], closing := true, timers := 1,
                                      ends := 1 },
                      { newBatch with keys := ["c"], timers := 1 }] },
           Thunk.wait "c" 1 0)) := by
  have hI : Inv s := by
    rw [hs]
    exact inv_run _ (inv_fresh m cache) evs
  have hmax : s.maxBatch = m := by
    rw [hs]
    exact (run_cache _ evs).2
  have hS : ∀ (b : Nat) (bt : peopleLoaderBatch), s.heap[b]? = some bt → SizeOK m bt := by
    rw [hs]
    refine size_run m hm hm64 _ rfl (inv_fresh m cache) ?_ evs
    intro b bt h
    simp [freshLoader] at h
  have hsub := subInt64_one m hm hm64
  refine ⟨?_, ?_, ?_, by decide, by decide⟩
  · intro b bt hh
    obtain ⟨h1, h2⟩ := hS b bt hh
    refine ⟨h1, h2, ?_, ?_⟩
    · intro hc
      have hne : s.batch ≠ some b := by
        intro hb
        have := ((hI.1 b bt hh).1 hb).1
        rw [hc] at this
        cases this
      exact ⟨((hI.1 b bt hh).2 hne).1, hne⟩
    · intro hb
      obtain ⟨h3, h4, _, _⟩ := (hI.1 b bt hh).1 hb
      have hlen : (bt.keys.length : Int) ≠ m := fun e => by
        rw [h2.mpr e] at h3
        cases h3
      exact ⟨by omega, h4⟩
  · intro key b bt hc hb hh hk
    obtain ⟨h3, h4, h5, h6⟩ := (hI.1 b bt hh).1 hb
    have hlen : bt.keys.length ≠ 0 := fun e => h6 (List.length_eq_zero.mp e)
    have hf := (findKey_eq_none key bt.keys).mpr hk
    have hstep := step_load_append s key b bt hc hb hh hf
    rw [hmax, hsub] at hstep
    constructor
    · intro hlt
      rw [hstep, if_neg (fun h => by omega)]
      simp [appended, hlen, hmax]
    · intro heq
      rw [hstep, if_pos ⟨⟨by omega, by omega⟩, h3⟩]
      simp [appended, hlen, h4, hmax]
  · intro key hc hb
    have hstep := step_load_alloc s key hc hb
    rw [hmax, hsub] at hstep
    constructor
    · intro hlt
      rw [hstep, if_neg (fun h => by omega)]
      simp [appended, newBatch, hmax]
    · intro heq
      rw [hstep, if_pos ⟨by omega, by omega⟩]
      simp [appended, newBatch, hmax]

/-- The size-flush theorem at `m = 2` after "a", "b", "c": registering "d" fills and
closes the second batch. -/
theorem size_triggered_flush_witness :
    (0 : Int) < 2 ∧ (2 : Int) < 2 ^ 63 ∧
      step (run (freshLoader 2 GoMap.nil) [Event.load "a", Event.load "b", Event.load "c"])
          (Event.load "d")
        = { maxBatch := 2, cache := GoMap.nil, batch := none,
            heap := [{ newBatch with keys := ["a", "b"], closing := true, timers := 1,
                                     ends := 1 },
                     { newBatch with keys := ["c", "d"], closing := true, timers := 1,
                                     ends := 1 }] } :=
  ⟨by decide, by decide,
    ((size_triggered_flush 2 (by decide) (by decide) GoMap.nil
      [Event.load "a", Event.load "b", Event.load "c"] _ rfl).2.1 "d" 1
      { newBatch with keys := ["c"], timers := 1 } (by decide) (by decide) (by decide)
      (by decide)).2 (by decide)⟩

/-- The at-most-once theorem at `maxBatch = 2`: the batch `["a"]` is dispatched by its timer
and keeps its one key and its one `end` invocation through later events. -/
theorem end_invoked_at_most_once_witness :
    (run (NewPeopleLoader 2) [Event.load "a"]).batch = some 0 ∧
      (run (step (run (NewPeopleLoader 2) [Event.load "a"]) (Event.timer 0))
          [Event.load "a", Event.load "b", Event.timer 0, Event.timer 1]).batch ≠ some 0 ∧
      ∃ bt2, (run (step (run (NewPeopleLoader 2) [Event.load "a"]) (Event.timer 0))
          [Event.load "a", Event.load "b", Event.timer 0, Event.timer 1]).heap[0]? = some bt2 ∧
        bt2.keys = ["a"] ∧ bt2.closing = false ∧ bt2.ends = 1 := by
  obtain ⟨bt, h1, _, _, _, h5⟩ :=
    (end_invoked_at_most_once 2 GoMap.nil [Event.load "a"]
      (run (NewPeopleLoader 2) [Event.load "a"]) rfl).2.2 0 (by decide)
  have hbt : bt = { newBatch with keys := ["a"], timers := 1 } := by
    have h0 : (run (NewPeopleLoader 2) [Event.load "a"]).heap[0]?
        = some { newBatch with keys := ["a"], timers := 1 } := by decide
    rw [h0] at h1
    exact (Option.some.inj h1).symm
  obtain ⟨h6, bt2, h7, h8, h9, h10⟩ :=
    h5 [Event.load "a", Event.load "b", Event.timer 0, Event.timer 1]
  exact ⟨by decide, h6, bt2, h7, by rw [h8, hbt], h9, h10⟩

end Dataloader
